import Mathlib

/-!
QTPD_DAQ: acquisition loop of the QTP readout program.

A shallow embedding of the acquisition loop of `src/QTPD_DAQ.c` (function `main`,
lines 706-871), of `findModelVersion` (lines 226-370) and of the data they work on.

Conventions of the embedding.

* A 32-bit word of the readout buffer is a `Nat`; the bit operations of the source
  (`&`, `>>`) are the `Nat` operations `&&&` and `>>>`.
* The `int` variables of the source (`pnt`, `wcnt`, `bcnt`, `nch`, `chindex`, `nev`,
  `totnb`, `ns[i]`) are `Int`, taken as exact integers.  The `uint32_t` histogram
  buckets wrap modulo `2^32`, the `uint16_t` event table modulo `2^16`.
* The arrays `buffer`, `ADCdata`, `histo`, `ns` are functions of the index; every access
  the source performs is checked against the declared size (`buffer[65536]`,
  `ADCdata[32]`, `histo[32][4096]`, `ns[32]`) and an access outside it makes the step
  return `none` (undefined behaviour of the C program).
* The collaborators are modelled by what the loop hands them: `regWrites` is the
  sequence of `write_reg` calls, `of_list` the records printed to the list file,
  `of_raw` the bytes written to the raw file (`none` is the `NULL` file pointer).
  The screen, the log file, gnuplot and the histogram files are not modelled.
-/

namespace QTPD

/-- Size in bytes of the readout buffer: `#define MAX_BLT_SIZE (256*1024)`. -/
def MAX_BLT_SIZE : Nat := 256 * 1024

/-- Mask of the data-type tag: `#define DATATYPE_MASK 0x06000000`. -/
def DATATYPE_MASK : Nat := 0x06000000

/-- Tag of a header word: `#define DATATYPE_HEADER 0x02000000`. -/
def DATATYPE_HEADER : Nat := 0x02000000

/-- Tag of a channel-data word: `#define DATATYPE_CHDATA 0x00000000`. -/
def DATATYPE_CHDATA : Nat := 0x00000000

/-- Tag of an end-of-block word: `#define DATATYPE_EOB 0x04000000`. -/
def DATATYPE_EOB : Nat := 0x04000000

/-- Tag of a filler word: `#define DATATYPE_FILLER 0x06000000`. -/
def DATATYPE_FILLER : Nat := 0x06000000

/-- One record of the event list file: the number printed by
`fprintf(of_list, "\nEvent Num. %6d", buffer[pnt] & 0xFFFFFF)` and the values printed
after it by the loop over `ADCdata`, in the order they are printed. -/
structure ListRecord where
  evnum : Nat
  fields : List Nat
  deriving DecidableEq, Repr

/-- Result of one call of `CAENVME_FIFOMBLTReadCycle`: the error code it returns, the
contents of `buffer` after the call and the byte count it stores in `bcnt`. -/
structure Blt where
  ret : Int
  data : Nat → Nat
  bcnt : Int

/-- Variables of `main` that the acquisition loop reads or writes, and the output
handed to the collaborators so far. -/
structure State where
  brd_nch : Int
  pnt : Int
  wcnt : Int
  bcnt : Int
  totnb : Int
  nev : Int
  nch : Int
  chindex : Int
  DataType : Nat
  quit : Bool
  buffer : Nat → Nat
  ADCdata : Nat → Nat
  histo : Nat → Nat → Nat
  ns : Nat → Int
  of_list : Option (List ListRecord)
  of_raw : Option (List Nat)
  regWrites : List (Nat × Nat)

/-- Lines 641-645 and 727-732: `ns[i]=0; memset(histo[i], 0, sizeof(uint32_t)*4096)`
for `i` from 0 to 31. -/
def clearHistograms (s : State) : State :=
  { s with
    ns := fun i => if i < 32 then 0 else s.ns i
    histo := fun i b => if i < 32 ∧ b < 4096 then 0 else s.histo i b }

/-- State at the entry of the acquisition loop (lines 641-645, 709-717), over the
values `junk` of the variables that are not initialised there (`bcnt`, `nch`,
`chindex`, `ADCdata`, the buffer beyond its first word). -/
def initState (junk : State) : State :=
  { clearHistograms junk with
    pnt := 0
    wcnt := 0
    totnb := 0
    nev := 0
    DataType := DATATYPE_HEADER
    quit := false
    buffer := fun i => if i = 0 then DATATYPE_FILLER else junk.buffer i
    regWrites := junk.regWrites ++ [(0x1040, 0x0), (0x1032, 0x4), (0x1034, 0x4)] }

/-- Lines 724-745, when the keyboard is polled and `c` is the key read (0 for no
key): `r` (114) clears the histograms and hit counters, `q` (113) sets `quit`.  The
keys `c` and `s` change only the plotted channel and the histogram files. -/
def keyboard (c : Nat) (s : State) : State :=
  let s1 := if c = 114 then clearHistograms s else s
  if c = 113 then { s1 with quit := true } else s1

/-- Lines 749-782, when more than 1000 ms have elapsed: the rates are printed and
`nev = 0; totnb = 0`. -/
def statistics (s : State) : State :=
  { s with nev := 0, totnb := 0 }

/-- Line 785: `(pnt == wcnt) || ((buffer[pnt] & DATATYPE_MASK) == DATATYPE_FILLER)`;
the buffer is read only when `pnt != wcnt`. -/
def needRefill (s : State) : Option Bool :=
  if s.pnt = s.wcnt then some true
  else if 0 ≤ s.pnt ∧ s.pnt < 65536 then
    some (decide (s.buffer s.pnt.toNat &&& DATATYPE_MASK = DATATYPE_FILLER))
  else none

/-- Lines 786-795: the block transfer, `wcnt = bcnt/4; totnb += bcnt; pnt = 0`.  The
value returned by `CAENVME_FIFOMBLTReadCycle` is not stored. -/
def refill (blt : Blt) (s : State) : State :=
  { s with
    buffer := blt.data
    bcnt := blt.bcnt
    wcnt := Int.tdiv blt.bcnt 4
    totnb := s.totnb + blt.bcnt
    pnt := 0 }

/-- The first `n` bytes of the buffer as `fwrite(buffer, sizeof(char), n, of_raw)`
reads them on a little-endian host. -/
def rawBytes (buffer : Nat → Nat) (n : Nat) : List Nat :=
  (List.range n).map (fun k => buffer (k / 4) / 256 ^ (k % 4) % 256)

/-- Lines 801-802: `if (of_raw != NULL) fwrite(buffer, sizeof(char), bcnt, of_raw)`.
A count that is negative or exceeds the buffer reads outside `buffer`. -/
def saveRaw (s : State) : Option State :=
  match s.of_raw with
  | none => some s
  | some f =>
    if 0 ≤ s.bcnt ∧ s.bcnt ≤ (MAX_BLT_SIZE : Int) then
      some { s with of_raw := some (f ++ rawBytes s.buffer s.bcnt.toNat) }
    else none

/-- Lines 863-869: `pnt = wcnt; write_reg(0x1032, 0x4); write_reg(0x1034, 0x4);
DataType = DATATYPE_HEADER; DataError = 0`. -/
def dataError (s : State) : State :=
  { s with
    pnt := s.wcnt
    regWrites := s.regWrites ++ [(0x1032, 0x4), (0x1034, 0x4)]
    DataType := DATATYPE_HEADER }

/-- Lines 828-831: the channel index `j` of a channel-data word. -/
def chanIndex (brd_nch : Int) (w : Nat) : Nat :=
  if brd_nch = 32 then (w >>> 16) &&& 0x3F else (w >>> 17) &&& 0x3F

/-- Lines 851-856: the values printed by the loop `for(i=0; i<32; i++) if (ADCdata[i]
!= 0xFFFF) fprintf(of_list, " %6d ", ADCdata[i])`. -/
def listFields (ADCdata : Nat → Nat) : List Nat :=
  ((List.range 32).filter (fun i => ADCdata i ≠ 0xFFFF)).map ADCdata

/-- Lines 811-818, the header word accepted: `nch = (buffer[pnt] >> 8) & 0x3F;
chindex = 0; nev++; memset(ADCdata, 0xFFFF, 32*sizeof(uint16_t))` and the choice of the
next `DataType`; then `pnt++` (line 861). -/
def onHeader (w : Nat) (s : State) : State :=
  { s with
    nch := (((w >>> 8) &&& 0x3F : Nat) : Int)
    chindex := 0
    nev := s.nev + 1
    ADCdata := fun i => if i < 32 then 0xFFFF else s.ADCdata i
    DataType := if (((w >>> 8) &&& 0x3F : Nat) : Int) > 0 then DATATYPE_CHDATA else DATATYPE_EOB
    pnt := s.pnt + 1 }

/-- Lines 832-837, the channel-data word accepted with channel index `j`:
`histo[j][buffer[pnt] & 0xFFF]++; ADCdata[j] = buffer[pnt] & 0xFFF; ns[j]++;
if (chindex == (nch-1)) DataType = DATATYPE_EOB; chindex++`; then `pnt++`. -/
def onChannel (j : Nat) (w : Nat) (s : State) : State :=
  { s with
    histo := fun c b =>
      if c = j ∧ b = (w &&& 0xFFF) then (s.histo j (w &&& 0xFFF) + 1) % 2 ^ 32 else s.histo c b
    ADCdata := fun i => if i = j then (w &&& 0xFFF) % 2 ^ 16 else s.ADCdata i
    ns := fun i => if i = j then s.ns j + 1 else s.ns i
    DataType := if s.chindex = s.nch - 1 then DATATYPE_EOB else s.DataType
    chindex := s.chindex + 1
    pnt := s.pnt + 1 }

/-- Lines 847-857, the end-of-block word accepted: `DataType = DATATYPE_HEADER` and,
if the list file is open, one record; then `pnt++`. -/
def onTrailer (w : Nat) (s : State) : State :=
  { s with
    DataType := DATATYPE_HEADER
    of_list := s.of_list.map (fun f => f ++ [⟨w &&& 0xFFFFFF, listFields s.ADCdata⟩])
    pnt := s.pnt + 1 }

/-- Lines 805-869 with `w` the word `buffer[pnt]`: the `switch (DataType)`, `pnt++`
and the recovery from `DataError`.  `DataError` is 0 at the start of every tick and is
cleared by the recovery, so it is a local of this step.  The tables have 32 entries:
a channel index of 32 or more is an access outside them. -/
def decodeWord (w : Nat) (s : State) : Option State :=
  if s.DataType = DATATYPE_HEADER then
    if w &&& DATATYPE_MASK ≠ DATATYPE_HEADER then some (dataError s)
    else some (onHeader w s)
  else if s.DataType = DATATYPE_CHDATA then
    if w &&& DATATYPE_MASK ≠ DATATYPE_CHDATA then some (dataError s)
    else if chanIndex s.brd_nch w < 32 then some (onChannel (chanIndex s.brd_nch w) w s)
    else none
  else if s.DataType = DATATYPE_EOB then
    if w &&& DATATYPE_MASK ≠ DATATYPE_EOB then some (dataError s)
    else some (onTrailer w s)
  else some { s with pnt := s.pnt + 1 }

/-- Lines 805-869: the decoding step on the word under the cursor. -/
def decode (s : State) : Option State :=
  if 0 ≤ s.pnt ∧ s.pnt < 65536 then decodeWord (s.buffer s.pnt.toNat) s else none

/-- Lines 785-869: refill if needed, `continue` on an empty block, write the raw
file, decode one word. -/
def acquire (blt : Blt) (s : State) : Option State :=
  match needRefill s with
  | none => none
  | some r =>
    let s1 := if r then refill blt s else s
    if s1.wcnt = 0 then some s1
    else (saveRaw s1).bind decode

/-- What one pass of the loop body receives from outside: whether the keyboard is
polled (`CurrentTime - PrevKbTime > 200`) and the key read, whether the statistics are
printed (`ElapsedTime > 1000`), and the result of the block transfer if one is made. -/
structure TickInput where
  kbPoll : Bool
  key : Nat
  plot : Bool
  blt : Blt

/-- Lines 723-869: one pass of the body of `while(!quit)`. -/
def tick (i : TickInput) (s : State) : Option State :=
  let s1 := if i.kbPoll then keyboard i.key s else s
  let s2 := if i.plot then statistics s1 else s1
  acquire i.blt s2

/-- Lines 721-871: the loop `while(!quit)` over the inputs of its successive passes. -/
def mainLoop : List TickInput → State → Option State
  | [], s => some s
  | i :: is, s => if s.quit then some s else (tick i s).bind (mainLoop is)

/-- The decoding step applied to a sequence of words, one word per tick. -/
def feed : List Nat → State → Option State
  | [], s => some s
  | w :: ws, s => (decodeWord w s).bind (feed ws)

/-- Lines 785-869 repeated: one `acquire` per block-transfer result of the list (the
result is used only by a pass that refills). -/
def acquireN : List Blt → State → Option State
  | [], s => some s
  | b :: bs, s => (acquire b s).bind (acquireN bs)

/-- The 12-bit value of the last word of `cs` whose channel index is `i`, if any. -/
def lastHit (brd_nch : Int) : List Nat → Nat → Option Nat
  | [], _ => none
  | w :: ws, i =>
    match lastHit brd_nch ws i with
    | some v => some v
    | none => if chanIndex brd_nch w = i then some (w &&& 0xFFF) else none

/-- The channel-data branch applied to the words of `cs` in order. -/
def storeChannels (cs : List Nat) (s : State) : State :=
  cs.foldl (fun s w => onChannel (chanIndex s.brd_nch w) w s) s

/-- The words of `cs` rearranged by channel index: for each index from 0 to 31 in
turn, the first word of `cs` with that index, if any. -/
def byChannel (brd_nch : Int) (cs : List Nat) : List Nat :=
  (List.range 32).filterMap (fun i => cs.find? (fun w => decide (chanIndex brd_nch w = i)))

/-- A state of the loop in `AwaitingHeader` on a 32-channel board with the list and raw
files open and empty, used to evaluate the model on concrete words. -/
def demoState : State :=
  { brd_nch := 32, pnt := 0, wcnt := 0, bcnt := 0, totnb := 0, nev := 0, nch := 0, chindex := 0
    DataType := DATATYPE_HEADER, quit := false, buffer := fun _ => DATATYPE_FILLER
    ADCdata := fun _ => 7, histo := fun _ _ => 0, ns := fun _ => 0
    of_list := some [], of_raw := some [], regWrites := [] }

/-- The state `demoState` in `ReadingChannels`, two channel words expected. -/
def demoChannels : State :=
  { demoState with DataType := DATATYPE_CHDATA, nch := 2 }

/-- The channel index and value of the word that `decode` accepts as channel data in
state `s`, if it accepts one. -/
def decodeHit (s : State) : Option (Nat × Nat) :=
  if 0 ≤ s.pnt ∧ s.pnt < 65536 then
    if s.DataType = DATATYPE_CHDATA
        ∧ s.buffer s.pnt.toNat &&& DATATYPE_MASK = DATATYPE_CHDATA then
      some (chanIndex s.brd_nch (s.buffer s.pnt.toNat), s.buffer s.pnt.toNat &&& 0xFFF)
    else none
  else none

/-- The channel word decoded by `acquire blt s`, if it decodes one: `decodeHit` at the
state in which `acquire` calls `decode`. -/
def acquireHit (blt : Blt) (s : State) : Option (Nat × Nat) :=
  match needRefill s with
  | none => none
  | some r =>
    let s1 := if r then refill blt s else s
    if s1.wcnt = 0 then none else (saveRaw s1).bind decodeHit

/-- A block of two frames on the 32-channel layout: event 0 with channel 0 = 451 and
channel 1 = 605, event 1 with channel 0 = 556 and channel 1 = 985. -/
def demoBlock : List Nat :=
  [0x02000200, 0x000001C3, 0x0001025D, 0x04000000, 0x02000200, 0x0000022C, 0x000103D9, 0x04000001]

/-- A block transfer that fills the buffer with `demoBlock` and reports its 32 bytes. -/
def demoBlt : Blt :=
  { ret := 0, data := fun i => demoBlock.getD i DATATYPE_FILLER, bcnt := 32 }

/-- A block transfer that delivers the two words of an empty event (header with count
0, end of block) and reports 8 bytes. -/
def demoEmptyBlt : Blt :=
  { ret := 0, data := fun i => [0x02000000, 0x04000000].getD i DATATYPE_FILLER, bcnt := 8 }

/-- Two passes of the loop over the block of `demoEmptyBlt`. -/
def demoEmptyRun : List TickInput :=
  [{ kbPoll := false, key := 0, plot := false, blt := demoEmptyBlt },
   { kbPoll := false, key := 0, plot := false, blt := demoEmptyBlt }]

/-- A block transfer that returns the error code -1 (`cvBusError`) and reports the 8
bytes of an empty event. -/
def demoFailedBlt : Blt :=
  { demoEmptyBlt with ret := -1 }

/-- A state in `ReadingChannels` whose cursor is on the second word of a block of four
words; that word, where a channel word is expected, carries the header tag. -/
def demoCorrupt : State :=
  { demoChannels with
    pnt := 1, wcnt := 4, bcnt := 16
    buffer := fun i => [0x02000200, 0x02010203, 0x0001025D, 0x04000000].getD i DATATYPE_FILLER }

/-- Lines 226-370: `findModelVersion(model, vers, modelVersion, ch)`, as the pair of
the values it leaves in `modelVersion` and `*ch`; for a model outside the `switch`
both keep the values they had. -/
def findModelVersion (model vers : Nat) (modelVersion : String) (ch : Int) : String × Int :=
  match model with
  | 792 =>
    match vers with
    | 0x11 => ("AA", 32)
    | 0x13 => ("AC", 32)
    | 0xE1 => ("NA", 16)
    | 0xE3 => ("NC", 16)
    | _ => ("-", 32)
  | 965 =>
    match vers with
    | 0x1E => ("A", 16)
    | 0xE3 => (" ", 32)
    | 0xE1 => (" ", 32)
    | _ => ("-", 32)
  | 775 =>
    match vers with
    | 0x11 => ("AA", 32)
    | 0x13 => ("AC", 32)
    | 0xE1 => ("NA", 16)
    | 0xE3 => ("NC", 16)
    | _ => ("-", 32)
  | 785 =>
    match vers with
    | 0x11 => ("AA", 32)
    | 0x12 => ("Ab", 32)
    | 0x13 => ("AC", 32)
    | 0x14 => ("AD", 32)
    | 0x15 => ("AE", 32)
    | 0x16 => ("AF", 32)
    | 0x17 => ("AG", 32)
    | 0x18 => ("AH", 32)
    | 0x1B => ("AK", 32)
    | 0xE1 => ("NA", 16)
    | 0xE2 => ("NB", 16)
    | 0xE3 => ("NC", 16)
    | 0xE4 => ("ND", 16)
    | _ => ("-", 32)
  | 862 =>
    match vers with
    | 0x11 => ("AA", 32)
    | 0x13 => ("AC", 32)
    | _ => ("-", 32)
  | _ => (modelVersion, ch)

/-- Line 672: the channel count `brd_nch` after `findModelVersion(model, vers,
modelVersion, &brd_nch)`, `brd_nch` being 32 before the call (line 378). -/
def boardChannels (model vers : Nat) : Int :=
  (findModelVersion model vers "" 32).2

/-- A frame of the word stream: a header word, channel-data words, an end-of-block
word. -/
structure Frame where
  header : Nat
  channels : List Nat
  trailer : Nat

/-- The words of a frame in stream order. -/
def Frame.words (f : Frame) : List Nat :=
  f.header :: f.channels ++ [f.trailer]

/-- A frame is well formed for the layout of `brd_nch`: the three kinds of word carry
their tags, the count field of the header is the number of channel words, and the
channel words have pairwise distinct channel indices inside the tables. -/
def wellFormed (brd_nch : Int) (f : Frame) : Prop :=
  f.header &&& DATATYPE_MASK = DATATYPE_HEADER
  ∧ (f.header >>> 8) &&& 0x3F = f.channels.length
  ∧ (∀ w ∈ f.channels, w &&& DATATYPE_MASK = DATATYPE_CHDATA ∧ chanIndex brd_nch w < 32)
  ∧ (f.channels.map (chanIndex brd_nch)).Nodup
  ∧ f.trailer &&& DATATYPE_MASK = DATATYPE_EOB

instance (brd_nch : Int) (f : Frame) : Decidable (wellFormed brd_nch f) := by
  unfold wellFormed
  infer_instance

/-- The list record of a frame: the low 24 bits of its trailer and the 12-bit values
of its channel words in ascending channel index. -/
def Frame.record (brd_nch : Int) (f : Frame) : ListRecord :=
  ⟨f.trailer &&& 0xFFFFFF, (byChannel brd_nch f.channels).map (fun w => w &&& 0xFFF)⟩

/-- The words of a sequence of frames in stream order. -/
def frameStream : List Frame → List Nat
  | [] => []
  | f :: fs => f.words ++ frameStream fs

/-- The words that a block transfer delivers: the first `bcnt/4` words of the buffer
after the transfer. -/
def blockWords (b : Blt) : List Nat :=
  (List.range (Int.tdiv b.bcnt 4).toNat).map b.data

/-- The words delivered by a sequence of block transfers, in arrival order. -/
def streamOf : List Blt → List Nat
  | [] => []
  | b :: bs => blockWords b ++ streamOf bs

/-- The passes of the loop over a sequence of blocks: one pass per delivered word, the
first pass of each block making the transfer that delivers it. -/
def blockPasses : List Blt → List Blt
  | [] => []
  | b :: bs => List.replicate (Int.tdiv b.bcnt 4).toNat b ++ blockPasses bs

/-- The part of the state that the decoding step depends on: the state with the
cursor, the buffer, the byte counters, the raw file and `quit` blanked. -/
def decoderView (s : State) : State :=
  { s with
    pnt := 0, wcnt := 0, bcnt := 0, totnb := 0, quit := false
    buffer := fun _ => 0, of_raw := none }

/-- Block transfer delivering the four words of event 0: channel 0 = 451, channel 1 =
605. -/
def demoBltA : Blt :=
  { ret := 0, bcnt := 16
    data := fun i => [0x02000200, 0x000001C3, 0x0001025D, 0x04000000].getD i DATATYPE_FILLER }

/-- Block transfer delivering the four words of event 1: channel 0 = 556, channel 1 =
985. -/
def demoBltB : Blt :=
  { ret := 0, bcnt := 16
    data := fun i => [0x02000200, 0x0000022C, 0x000103D9, 0x04000001].getD i DATATYPE_FILLER }

/-- The two frames delivered by `demoBltA` and `demoBltB`. -/
def demoFrames : List Frame :=
  [⟨0x02000200, [0x000001C3, 0x0001025D], 0x04000000⟩,
   ⟨0x02000200, [0x0000022C, 0x000103D9], 0x04000001⟩]

/-! ## Single steps -/

theorem and_fff_lt (w : Nat) : w &&& 0xFFF < 4096 := by
  have h := Nat.and_pow_two_sub_one_eq_mod w 12
  have h2 : (2 : Nat) ^ 12 - 1 = 0xFFF := by norm_num
  rw [h2] at h
  rw [h]
  exact Nat.mod_lt _ (by norm_num)

theorem and_fff_mod (w : Nat) : (w &&& 0xFFF) % 2 ^ 16 = w &&& 0xFFF := by
  apply Nat.mod_eq_of_lt
  have := and_fff_lt w
  omega

theorem decodeWord_header (w : Nat) (s : State) (hs : s.DataType = DATATYPE_HEADER)
    (hw : w &&& DATATYPE_MASK = DATATYPE_HEADER) : decodeWord w s = some (onHeader w s) := by
  simp [decodeWord, hs, hw]

theorem decodeWord_channel (w : Nat) (s : State) (hs : s.DataType = DATATYPE_CHDATA)
    (hw : w &&& DATATYPE_MASK = DATATYPE_CHDATA) (hj : chanIndex s.brd_nch w < 32) :
    decodeWord w s = some (onChannel (chanIndex s.brd_nch w) w s) := by
  simp [decodeWord, hs, hw, hj, DATATYPE_CHDATA, DATATYPE_HEADER]

theorem decodeWord_channel_out (w : Nat) (s : State) (hs : s.DataType = DATATYPE_CHDATA)
    (hw : w &&& DATATYPE_MASK = DATATYPE_CHDATA) (hj : ¬ chanIndex s.brd_nch w < 32) :
    decodeWord w s = none := by
  simp [decodeWord, hs, hw, hj, DATATYPE_CHDATA, DATATYPE_HEADER]

theorem decodeWord_trailer (w : Nat) (s : State) (hs : s.DataType = DATATYPE_EOB)
    (hw : w &&& DATATYPE_MASK = DATATYPE_EOB) : decodeWord w s = some (onTrailer w s) := by
  simp [decodeWord, hs, hw, DATATYPE_CHDATA, DATATYPE_HEADER, DATATYPE_EOB]

theorem feed_append (a b : List Nat) (s : State) :
    feed (a ++ b) s = (feed a s).bind (feed b) := by
  induction a generalizing s with
  | nil => simp [feed]
  | cons w ws ih =>
    simp only [List.cons_append, feed]
    cases h : decodeWord w s with
    | none => simp
    | some s1 => simp [ih]

/-! ## The channel words of a frame -/

theorem storeChannels_cons (w : Nat) (ws : List Nat) (s : State) :
    storeChannels (w :: ws) s = storeChannels ws (onChannel (chanIndex s.brd_nch w) w s) := rfl

theorem storeChannels_brd_nch (cs : List Nat) (s : State) :
    (storeChannels cs s).brd_nch = s.brd_nch := by
  induction cs generalizing s with
  | nil => rfl
  | cons w ws ih => simp [storeChannels_cons, ih, onChannel]

theorem storeChannels_nch (cs : List Nat) (s : State) :
    (storeChannels cs s).nch = s.nch := by
  induction cs generalizing s with
  | nil => rfl
  | cons w ws ih => simp [storeChannels_cons, ih, onChannel]

theorem storeChannels_of_list (cs : List Nat) (s : State) :
    (storeChannels cs s).of_list = s.of_list := by
  induction cs generalizing s with
  | nil => rfl
  | cons w ws ih => simp [storeChannels_cons, ih, onChannel]

theorem storeChannels_chindex (cs : List Nat) (s : State) :
    (storeChannels cs s).chindex = s.chindex + cs.length := by
  induction cs generalizing s with
  | nil => simp [storeChannels]
  | cons w ws ih =>
    simp only [storeChannels_cons, ih, onChannel, List.length_cons]
    push_cast
    ring

theorem storeChannels_pnt (cs : List Nat) (s : State) :
    (storeChannels cs s).pnt = s.pnt + cs.length := by
  induction cs generalizing s with
  | nil => simp [storeChannels]
  | cons w ws ih =>
    simp only [storeChannels_cons, ih, onChannel, List.length_cons]
    push_cast
    ring

theorem storeChannels_ADCdata (cs : List Nat) (s : State) (i : Nat) :
    (storeChannels cs s).ADCdata i = (lastHit s.brd_nch cs i).getD (s.ADCdata i) := by
  induction cs generalizing s with
  | nil => simp [storeChannels, lastHit]
  | cons w ws ih =>
    rw [storeChannels_cons, ih]
    have hb : (onChannel (chanIndex s.brd_nch w) w s).brd_nch = s.brd_nch := rfl
    rw [hb]
    cases h : lastHit s.brd_nch ws i with
    | some v => simp [lastHit, h]
    | none =>
      by_cases hi : chanIndex s.brd_nch w = i
      · have hm := and_fff_mod w
        simp only [lastHit, h, hi, onChannel, if_true, Option.getD_some]
        exact hm
      · have hi2 : ¬ i = chanIndex s.brd_nch w := fun e => hi e.symm
        simp [lastHit, h, hi, hi2, onChannel]

theorem storeChannels_DataType (cs : List Nat) (s : State)
    (hs : s.DataType = DATATYPE_CHDATA) (hne : cs ≠ [])
    (hle : s.chindex + cs.length = s.nch) :
    (storeChannels cs s).DataType = DATATYPE_EOB := by
  induction cs generalizing s with
  | nil => exact absurd rfl hne
  | cons w ws ih =>
    rw [storeChannels_cons]
    cases ws with
    | nil =>
      simp only [List.length_cons, List.length_nil] at hle
      have : s.chindex = s.nch - 1 := by push_cast at hle; omega
      simp [storeChannels, onChannel, this]
    | cons w2 ws2 =>
      apply ih
      · simp only [List.length_cons] at hle
        have : ¬ s.chindex = s.nch - 1 := by push_cast at hle; omega
        simp [onChannel, this, hs]
      · simp
      · simp only [List.length_cons] at hle ⊢
        simp only [onChannel]
        push_cast at hle ⊢
        omega

theorem feed_channels (cs : List Nat) (s : State)
    (hs : s.DataType = DATATYPE_CHDATA)
    (hc : ∀ w ∈ cs, w &&& DATATYPE_MASK = DATATYPE_CHDATA ∧ chanIndex s.brd_nch w < 32)
    (hle : s.chindex + cs.length ≤ s.nch) :
    feed cs s = some (storeChannels cs s) := by
  induction cs generalizing s with
  | nil => rfl
  | cons w ws ih =>
    have hw := hc w (List.mem_cons_self _ _)
    rw [feed, decodeWord_channel w s hs hw.1 hw.2, storeChannels_cons]
    simp only [Option.some_bind]
    cases ws with
    | nil => rfl
    | cons w2 ws2 =>
      apply ih
      · simp only [List.length_cons] at hle
        have : ¬ s.chindex = s.nch - 1 := by push_cast at hle; omega
        simp [onChannel, this, hs]
      · intro x hx
        exact hc x (List.mem_cons_of_mem _ hx)
      · simp only [List.length_cons] at hle ⊢
        simp only [onChannel]
        push_cast at hle ⊢
        omega

/-! ## A whole frame -/

theorem lastHit_lt (brd : Int) (cs : List Nat) (i v : Nat) (h : lastHit brd cs i = some v) :
    v < 4096 := by
  induction cs with
  | nil => simp [lastHit] at h
  | cons w ws ih =>
    simp only [lastHit] at h
    cases h2 : lastHit brd ws i with
    | some v2 =>
      rw [h2] at h
      simp only [Option.some.injEq] at h
      subst h
      exact ih h2
    | none =>
      rw [h2] at h
      by_cases hi : chanIndex brd w = i
      · simp only [hi, if_true, Option.some.injEq] at h
        exact h ▸ and_fff_lt w
      · simp [hi] at h

theorem lastHit_isSome (brd : Int) (cs : List Nat) (i : Nat) :
    (lastHit brd cs i).isSome = true ↔ i ∈ cs.map (chanIndex brd) := by
  induction cs with
  | nil => simp [lastHit]
  | cons w ws ih =>
    simp only [lastHit, List.map_cons, List.mem_cons]
    cases h2 : lastHit brd ws i with
    | some v2 =>
      rw [h2] at ih
      simp only [Option.isSome_some, true_iff] at ih
      simp [ih]
    | none =>
      rw [h2] at ih
      have ih2 : ¬ i ∈ ws.map (chanIndex brd) := by
        intro hm
        have := ih.mpr hm
        simp at this
      by_cases hi : chanIndex brd w = i
      · simp [hi]
      · have hi2 : ¬ i = chanIndex brd w := fun e => hi e.symm
        simp [hi, hi2, ih2]

theorem filter_map_eq_filterMap (L : List Nat) (A : Nat → Nat) (hit : Nat → Option Nat)
    (hA : ∀ i ∈ L, A i = (hit i).getD 0xFFFF)
    (hv : ∀ i v, hit i = some v → v ≠ 0xFFFF) :
    (L.filter (fun i => A i ≠ 0xFFFF)).map A = L.filterMap hit := by
  induction L with
  | nil => rfl
  | cons a l ih =>
    have ih2 := ih (fun i hi => hA i (List.mem_cons_of_mem _ hi))
    have ha := hA a (List.mem_cons_self _ _)
    cases h : hit a with
    | none =>
      rw [h] at ha
      simp only [Option.getD_none] at ha
      rw [List.filterMap_cons_none h, ← ih2]
      simp [List.filter_cons, ha]
    | some v =>
      rw [h] at ha
      simp only [Option.getD_some] at ha
      have hv2 : v ≠ 0xFFFF := hv a v h
      rw [List.filterMap_cons_some h, ← ih2]
      simp [List.filter_cons, hv2, ha]

theorem listFields_frame (h : Nat) (cs : List Nat) (s : State) :
    listFields (storeChannels cs (onHeader h s)).ADCdata
      = (List.range 32).filterMap (lastHit s.brd_nch cs) := by
  unfold listFields
  apply filter_map_eq_filterMap
  · intro i hi
    have hi32 : i < 32 := List.mem_range.mp hi
    rw [storeChannels_ADCdata]
    simp [onHeader, hi32]
  · intro i v hv
    have := lastHit_lt _ _ _ _ hv
    omega

theorem feed_header_channels (s : State) (h : Nat) (cs : List Nat)
    (hs : s.DataType = DATATYPE_HEADER)
    (hh : h &&& DATATYPE_MASK = DATATYPE_HEADER)
    (hn : (h >>> 8) &&& 0x3F = cs.length)
    (hc : ∀ w ∈ cs, w &&& DATATYPE_MASK = DATATYPE_CHDATA ∧ chanIndex s.brd_nch w < 32) :
    feed (h :: cs) s = some (storeChannels cs (onHeader h s))
      ∧ (storeChannels cs (onHeader h s)).DataType = DATATYPE_EOB := by
  rw [feed, decodeWord_header h s hs hh]
  simp only [Option.some_bind]
  cases cs with
  | nil =>
    simp only [List.length_nil] at hn
    constructor
    · rfl
    · simp [storeChannels, onHeader, hn]
  | cons c cs2 =>
    have h0 : (onHeader h s).DataType = DATATYPE_CHDATA := by
      simp only [List.length_cons] at hn
      simp [onHeader, hn]
    have h2 : (onHeader h s).chindex + ((c :: cs2).length : Int) = (onHeader h s).nch := by
      simp only [onHeader, hn]
      omega
    exact ⟨feed_channels (c :: cs2) (onHeader h s) h0 hc (le_of_eq h2),
      storeChannels_DataType _ _ h0 (by simp) h2⟩

theorem feed_frame (s : State) (h : Nat) (cs : List Nat) (t : Nat)
    (hs : s.DataType = DATATYPE_HEADER)
    (hh : h &&& DATATYPE_MASK = DATATYPE_HEADER)
    (hn : (h >>> 8) &&& 0x3F = cs.length)
    (hc : ∀ w ∈ cs, w &&& DATATYPE_MASK = DATATYPE_CHDATA ∧ chanIndex s.brd_nch w < 32)
    (ht : t &&& DATATYPE_MASK = DATATYPE_EOB) :
    feed (h :: cs ++ [t]) s = some (onTrailer t (storeChannels cs (onHeader h s))) := by
  have hfc := feed_header_channels s h cs hs hh hn hc
  rw [feed_append, hfc.1]
  simp only [Option.some_bind, feed]
  rw [decodeWord_trailer t _ hfc.2 ht]
  rfl

/-! ## Channel words with distinct indices -/

theorem lastHit_eq_find (brd : Int) (cs : List Nat) (i : Nat)
    (hd : (cs.map (chanIndex brd)).Nodup) :
    lastHit brd cs i
      = (cs.find? (fun w => decide (chanIndex brd w = i))).map (fun w => w &&& 0xFFF) := by
  induction cs with
  | nil => rfl
  | cons w ws ih =>
    rw [List.map_cons, List.nodup_cons] at hd
    have ih2 := ih hd.2
    by_cases hi : chanIndex brd w = i
    · have hnone : lastHit brd ws i = none := by
        cases h : lastHit brd ws i with
        | none => rfl
        | some v =>
          have hm := (lastHit_isSome brd ws i).mp (by simp [h])
          exact absurd (hi ▸ hm) hd.1
      simp [lastHit, hnone, hi, List.find?_cons]
    · simp only [lastHit, List.find?_cons, hi, decide_False, if_false]
      rw [← ih2]
      cases lastHit brd ws i <;> rfl

theorem byChannel_values (brd : Int) (cs : List Nat) (hd : (cs.map (chanIndex brd)).Nodup) :
    (byChannel brd cs).map (fun w => w &&& 0xFFF) = (List.range 32).filterMap (lastHit brd cs) := by
  unfold byChannel
  rw [List.map_filterMap]
  congr 1
  funext i
  exact (lastHit_eq_find brd cs i hd).symm

theorem byChannel_sorted (brd : Int) (cs : List Nat) :
    ((byChannel brd cs).map (chanIndex brd)).Sorted (fun a b => a < b) := by
  unfold List.Sorted byChannel
  rw [List.pairwise_map]
  apply List.Pairwise.filterMap _ _ (List.pairwise_lt_range 32)
  intro a a' haa b hb b' hb'
  have h1 := List.find?_some (Option.mem_def.mp hb)
  have h2 := List.find?_some (Option.mem_def.mp hb')
  simp only [decide_eq_true_eq] at h1 h2
  omega

theorem byChannel_mem (brd : Int) (cs : List Nat) (hd : (cs.map (chanIndex brd)).Nodup)
    (hc : ∀ w ∈ cs, chanIndex brd w < 32) (w : Nat) : w ∈ byChannel brd cs ↔ w ∈ cs := by
  unfold byChannel
  rw [List.mem_filterMap]
  constructor
  · rintro ⟨i, _, hf⟩
    exact List.mem_of_find?_eq_some hf
  · intro hw
    refine ⟨chanIndex brd w, List.mem_range.mpr (hc w hw), ?_⟩
    cases hf : cs.find? (fun x => decide (chanIndex brd x = chanIndex brd w)) with
    | none =>
      have := List.find?_eq_none.mp hf w hw
      simp at this
    | some x =>
      have hx := List.find?_some hf
      simp only [decide_eq_true_eq] at hx
      have hxm := List.mem_of_find?_eq_some hf
      rw [List.inj_on_of_nodup_map hd hxm hw hx]

theorem byChannel_perm (brd : Int) (cs : List Nat) (hd : (cs.map (chanIndex brd)).Nodup)
    (hc : ∀ w ∈ cs, chanIndex brd w < 32) : (byChannel brd cs).Perm cs := by
  rw [List.perm_ext_iff_of_nodup]
  · exact byChannel_mem brd cs hd hc
  · have hs := byChannel_sorted brd cs
    exact List.Nodup.of_map _ (List.Sorted.nodup hs)
  · exact List.Nodup.of_map _ hd

/-! ## Claims on the decoding of a frame -/

theorem lastHit_nil_fields (brd : Int) :
    (List.range 32).filterMap (lastHit brd []) = [] := by
  rw [List.filterMap_eq_nil_iff]
  intro a _
  rfl

theorem feed_take_quiet (s : State) (h : Nat) (cs : List Nat) (t : Nat)
    (hs : s.DataType = DATATYPE_HEADER)
    (hh : h &&& DATATYPE_MASK = DATATYPE_HEADER)
    (hn : (h >>> 8) &&& 0x3F = cs.length)
    (hc : ∀ w ∈ cs, w &&& DATATYPE_MASK = DATATYPE_CHDATA ∧ chanIndex s.brd_nch w < 32)
    (k : Nat) (hk : k ≤ cs.length + 1) :
    ∃ s1, feed ((h :: cs ++ [t]).take k) s = some s1 ∧ s1.of_list = s.of_list := by
  have hlen : k ≤ (h :: cs).length := by simpa using hk
  rw [List.take_append_of_le_length hlen]
  cases k with
  | zero => exact ⟨s, rfl, rfl⟩
  | succ m =>
    rw [List.take_succ_cons, feed, decodeWord_header h s hs hh]
    simp only [Option.some_bind]
    cases m with
    | zero => exact ⟨onHeader h s, rfl, rfl⟩
    | succ m2 =>
      have hpos : 0 < cs.length := by omega
      have h0 : (onHeader h s).DataType = DATATYPE_CHDATA := by
        have : ¬ cs.length = 0 := by omega
        simp [onHeader, hn, this]
      have hmem : ∀ w ∈ cs.take (m2 + 1),
          w &&& DATATYPE_MASK = DATATYPE_CHDATA ∧ chanIndex (onHeader h s).brd_nch w < 32 :=
        fun w hw => hc w (List.mem_of_mem_take hw)
      have hle : (onHeader h s).chindex + ((cs.take (m2 + 1)).length : Int) ≤ (onHeader h s).nch := by
        simp only [onHeader, hn, List.length_take]
        omega
      refine ⟨_, feed_channels _ _ h0 hmem hle, ?_⟩
      rw [storeChannels_of_list]
      rfl

/-- C1 (frame round-trip).  On either board layout, with the list file open and the
decoder in `AwaitingHeader`, feed a header word whose count field is `n`, then `n`
channel-data words with pairwise distinct channel indices below the channel count of
the board, then an end-of-block word.  No record is written while the header and the
channel words are consumed; the end-of-block word writes exactly one record, whose
number is the low 24 bits of that word and whose fields are the 12-bit values of the
channel words rearranged in strictly ascending channel index; the decoder is back in
`AwaitingHeader`. -/
theorem frame_round_trip (s : State) (out : List ListRecord) (h : Nat) (cs : List Nat) (t : Nat)
    (hb : s.brd_nch = 32 ∨ s.brd_nch = 16)
    (hs : s.DataType = DATATYPE_HEADER)
    (hl : s.of_list = some out)
    (hh : h &&& DATATYPE_MASK = DATATYPE_HEADER)
    (hn : (h >>> 8) &&& 0x3F = cs.length)
    (hc : ∀ w ∈ cs, w &&& DATATYPE_MASK = DATATYPE_CHDATA
      ∧ (chanIndex s.brd_nch w : Int) < s.brd_nch)
    (hd : (cs.map (chanIndex s.brd_nch)).Nodup)
    (ht : t &&& DATATYPE_MASK = DATATYPE_EOB) :
    (∀ k, k ≤ cs.length + 1 →
      ∃ s1, feed ((h :: cs ++ [t]).take k) s = some s1 ∧ s1.of_list = some out)
    ∧ ∃ (s' : State) (sorted : List Nat), feed (h :: cs ++ [t]) s = some s'
      ∧ s'.DataType = DATATYPE_HEADER
      ∧ s'.of_list = some (out ++ [⟨t &&& 0xFFFFFF, sorted.map (fun w => w &&& 0xFFF)⟩])
      ∧ sorted.Perm cs
      ∧ (sorted.map (chanIndex s.brd_nch)).Sorted (fun a b => a < b) := by
  have hc32 : ∀ w ∈ cs, w &&& DATATYPE_MASK = DATATYPE_CHDATA ∧ chanIndex s.brd_nch w < 32 := by
    intro w hw
    have := hc w hw
    refine ⟨this.1, ?_⟩
    rcases hb with hb | hb <;> rw [hb] at this ⊢ <;> omega
  constructor
  · intro k hk
    obtain ⟨s1, h1, h2⟩ := feed_take_quiet s h cs t hs hh hn hc32 k hk
    exact ⟨s1, h1, h2.trans hl⟩
  · refine ⟨_, byChannel s.brd_nch cs, feed_frame s h cs t hs hh hn hc32 ht, rfl, ?_,
      byChannel_perm _ _ hd (fun w hw => (hc32 w hw).2), byChannel_sorted _ _⟩
    simp only [onTrailer, storeChannels_of_list, listFields_frame, byChannel_values _ _ hd]
    simp [onHeader, hl]

/-- Witness of C1: a 32-channel frame whose two channel words arrive as channel 1
(value 605) and then channel 0 (value 451). -/
theorem frame_round_trip_witness :
    ∃ (s' : State) (sorted : List Nat), feed (0x02000200 :: [0x0001025D, 0x000001C3] ++ [0x04000007]) demoState = some s'
      ∧ s'.DataType = DATATYPE_HEADER
      ∧ s'.of_list = some ([] ++ [⟨0x04000007 &&& 0xFFFFFF, sorted.map (fun w => w &&& 0xFFF)⟩])
      ∧ sorted.Perm [0x0001025D, 0x000001C3]
      ∧ (sorted.map (chanIndex demoState.brd_nch)).Sorted (fun a b => a < b) :=
  (frame_round_trip demoState [] 0x02000200 [0x0001025D, 0x000001C3] 0x04000007
    (Or.inl rfl) rfl rfl (by decide) (by decide) (by decide) (by decide) (by decide)).2

theorem lastHit_eq_none (brd : Int) (cs : List Nat) (i : Nat) :
    lastHit brd cs i = none ↔ ∀ w ∈ cs, chanIndex brd w ≠ i := by
  have h := lastHit_isSome brd cs i
  constructor
  · intro hnone w hw hi
    have hm : i ∈ cs.map (chanIndex brd) := List.mem_map.mpr ⟨w, hw, hi⟩
    have := h.mpr hm
    simp [hnone] at this
  · intro hall
    cases hl : lastHit brd cs i with
    | none => rfl
    | some v =>
      have hm := h.mp (by simp [hl])
      obtain ⟨w, hw, hi⟩ := List.mem_map.mp hm
      exact absurd hi (hall w hw)

theorem lastHit_last (brd : Int) (pre : List Nat) (w : Nat) (post : List Nat)
    (hp : ∀ x ∈ post, chanIndex brd x ≠ chanIndex brd w) :
    lastHit brd (pre ++ w :: post) (chanIndex brd w) = some (w &&& 0xFFF) := by
  induction pre with
  | nil =>
    have hnone := (lastHit_eq_none brd post (chanIndex brd w)).mpr hp
    simp [lastHit, hnone]
  | cons p pre2 ih => simp [lastHit, ih]

/-- C7 (present versus zero).  With the list file open, a frame made of a header
word, the channel-data words `cs` and an end-of-block word writes one record whose
fields are, for the channel indices 0 to 31 in ascending order, the value `lastHit`
gives for the index, and nothing for an index where it gives none.  `lastHit` gives
none exactly for the indices that no word of `cs` carries, and otherwise the 12-bit
value of the last word of `cs` carrying the index, a value 0 included. -/
theorem present_versus_zero (s : State) (out : List ListRecord) (h : Nat) (cs : List Nat)
    (t : Nat)
    (hs : s.DataType = DATATYPE_HEADER)
    (hl : s.of_list = some out)
    (hh : h &&& DATATYPE_MASK = DATATYPE_HEADER)
    (hn : (h >>> 8) &&& 0x3F = cs.length)
    (hc : ∀ w ∈ cs, w &&& DATATYPE_MASK = DATATYPE_CHDATA ∧ chanIndex s.brd_nch w < 32)
    (ht : t &&& DATATYPE_MASK = DATATYPE_EOB) :
    ∃ s' : State, feed (h :: cs ++ [t]) s = some s'
      ∧ s'.of_list
        = some (out ++ [⟨t &&& 0xFFFFFF, (List.range 32).filterMap (lastHit s.brd_nch cs)⟩])
      ∧ (∀ i, lastHit s.brd_nch cs i = none ↔ ∀ w ∈ cs, chanIndex s.brd_nch w ≠ i)
      ∧ (∀ pre w post, cs = pre ++ w :: post →
          (∀ x ∈ post, chanIndex s.brd_nch x ≠ chanIndex s.brd_nch w) →
          lastHit s.brd_nch cs (chanIndex s.brd_nch w) = some (w &&& 0xFFF)) := by
  refine ⟨_, feed_frame s h cs t hs hh hn hc ht, ?_, lastHit_eq_none _ _, ?_⟩
  · simp only [onTrailer, storeChannels_of_list, listFields_frame]
    simp [onHeader, hl]
  · intro pre w post hcs hp
    rw [hcs]
    exact lastHit_last _ pre w post hp

/-- Witness of C7: channel 2 is hit twice (5, then 9), channel 0 once with value 0;
the record holds 0 for channel 0 and 9 for channel 2, and nothing else. -/
theorem present_versus_zero_witness :
    ∃ s' : State,
      feed (0x02000300 :: [0x00020005, 0x00000000, 0x00020009] ++ [0x04000001]) demoState
        = some s'
      ∧ s'.of_list = some [⟨1, [0, 9]⟩] := by
  obtain ⟨s', h1, h2, _⟩ := present_versus_zero demoState [] 0x02000300
    [0x00020005, 0x00000000, 0x00020009] 0x04000001 rfl rfl (by decide) (by decide)
    (by decide) (by decide)
  refine ⟨s', h1, ?_⟩
  rw [h2]
  decide

/-- C8 (empty event).  A header word whose channel-count field is 0, consumed in
`AwaitingHeader`, takes the decoder to `AwaitingTrailer`, and the end-of-block word
that follows writes a record with its event number and no field, whatever the event
table held before. -/
theorem empty_event (s : State) (out : List ListRecord) (h t : Nat)
    (hs : s.DataType = DATATYPE_HEADER)
    (hl : s.of_list = some out)
    (hh : h &&& DATATYPE_MASK = DATATYPE_HEADER)
    (hn : (h >>> 8) &&& 0x3F = 0)
    (ht : t &&& DATATYPE_MASK = DATATYPE_EOB) :
    ∃ s1 s2 : State, decodeWord h s = some s1
      ∧ s1.DataType = DATATYPE_EOB
      ∧ decodeWord t s1 = some s2
      ∧ s2.of_list = some (out ++ [⟨t &&& 0xFFFFFF, []⟩])
      ∧ s2.DataType = DATATYPE_HEADER := by
  have h0 : (onHeader h s).DataType = DATATYPE_EOB := by simp [onHeader, hn]
  refine ⟨onHeader h s, onTrailer t (onHeader h s), decodeWord_header h s hs hh, h0,
    decodeWord_trailer t _ h0 ht, ?_, rfl⟩
  have hf := listFields_frame h [] s
  simp only [storeChannels, List.foldl_nil, lastHit_nil_fields] at hf
  simp only [onTrailer, hf]
  simp [onHeader, hl]

/-- Witness of C8: an empty event after a state whose event table holds 7 in every
channel. -/
theorem empty_event_witness :
    ∃ s1 s2 : State, decodeWord 0x02000000 demoState = some s1
      ∧ s1.DataType = DATATYPE_EOB
      ∧ decodeWord 0x04000005 s1 = some s2
      ∧ s2.of_list = some ([] ++ [⟨0x04000005 &&& 0xFFFFFF, []⟩])
      ∧ s2.DataType = DATATYPE_HEADER :=
  empty_event demoState [] 0x02000000 0x04000005 rfl rfl (by decide) (by decide) (by decide)

/-! ## Claims on a single decoding step -/

/-- C2 (frame error step).  In each of the three decoder states, a word whose tag is
not the one the state expects is consumed as follows: the cursor becomes the word
count of the block, so that the next tick refills; the registers 0x1032 and 0x1034 are
written with 0x4, in that order; the decoder is in `AwaitingHeader`; no record is
written; the histograms and the hit counters are unchanged. -/
theorem frame_error_step (s : State) (w : Nat)
    (hs : s.DataType = DATATYPE_HEADER ∨ s.DataType = DATATYPE_CHDATA
      ∨ s.DataType = DATATYPE_EOB)
    (hw : w &&& DATATYPE_MASK ≠ s.DataType) :
    ∃ s' : State, decodeWord w s = some s'
      ∧ s'.pnt = s.wcnt ∧ s'.wcnt = s.wcnt
      ∧ needRefill s' = some true
      ∧ s'.regWrites = s.regWrites ++ [(0x1032, 0x4), (0x1034, 0x4)]
      ∧ s'.DataType = DATATYPE_HEADER
      ∧ s'.of_list = s.of_list
      ∧ s'.histo = s.histo
      ∧ s'.ns = s.ns := by
  refine ⟨dataError s, ?_, rfl, rfl, ?_, rfl, rfl, rfl, rfl, rfl⟩
  · rcases hs with hs | hs | hs
    · rw [hs] at hw
      unfold decodeWord
      rw [if_pos hs, if_pos hw]
    · rw [hs] at hw
      have h1 : ¬ s.DataType = DATATYPE_HEADER := by rw [hs]; decide
      unfold decodeWord
      rw [if_neg h1, if_pos hs, if_pos hw]
    · rw [hs] at hw
      have h1 : ¬ s.DataType = DATATYPE_HEADER := by rw [hs]; decide
      have h2 : ¬ s.DataType = DATATYPE_CHDATA := by rw [hs]; decide
      unfold decodeWord
      rw [if_neg h1, if_neg h2, if_pos hs, if_pos hw]
  · simp [needRefill, dataError]

/-- Witness of C2: a header-tagged word met while channel words are expected. -/
theorem frame_error_step_witness :
    ∃ s' : State, decodeWord 0x02000200 demoChannels = some s'
      ∧ s'.pnt = demoChannels.wcnt ∧ s'.wcnt = demoChannels.wcnt
      ∧ needRefill s' = some true
      ∧ s'.regWrites = demoChannels.regWrites ++ [(0x1032, 0x4), (0x1034, 0x4)]
      ∧ s'.DataType = DATATYPE_HEADER
      ∧ s'.of_list = demoChannels.of_list
      ∧ s'.histo = demoChannels.histo
      ∧ s'.ns = demoChannels.ns :=
  frame_error_step demoChannels 0x02000200 (Or.inr (Or.inl rfl)) (by decide)

/-- C6 at its failing inputs.  The word 0x00200000 is tagged as channel data and, on
the 32-channel layout, its 6-bit index field is 32: the decoding step indexes the 32
entries of `histo`, `ADCdata` and `ns` at 32.  The word 0x00400000 does the same on
the 16-channel layout. -/
theorem channel_index_out_of_tables :
    0x00200000 &&& DATATYPE_MASK = DATATYPE_CHDATA
      ∧ chanIndex 32 0x00200000 = 32
      ∧ decodeWord 0x00200000 demoChannels = none
      ∧ 0x00400000 &&& DATATYPE_MASK = DATATYPE_CHDATA
      ∧ chanIndex 16 0x00400000 = 32
      ∧ decodeWord 0x00400000 { demoChannels with brd_nch := 16 } = none := by
  exact ⟨by decide, by decide, decodeWord_channel_out _ _ rfl (by decide) (by decide),
    by decide, by decide, decodeWord_channel_out _ _ rfl (by decide) (by decide)⟩

/-! ## Histograms and hit counters along a run -/

/-- C9 at its failing input.  With the raw file open, the loop runs two passes from
its initial state; the first pass makes the only block transfer, which delivers 8
bytes (the byte counter ends at 8), and each of the two passes writes those 8 bytes to
the raw file, which ends with 16 bytes: the block twice. -/
theorem raw_dump_repeats_block :
    (mainLoop demoEmptyRun (initState demoState)).map (fun s => (s.totnb, s.pnt, s.of_raw))
      = some (8, 2, some [0, 0, 0, 2, 0, 0, 0, 4, 0, 0, 0, 2, 0, 0, 0, 4])
    ∧ rawBytes demoEmptyBlt.data 8 = [0, 0, 0, 2, 0, 0, 0, 4] := by
  constructor <;> decide

/-- Counterexample to C10.  From the initial state a refill is due; the transfer
returns the error code -1 and reports 8 bytes.  The word count becomes 2, the byte
counter grows from 0 to 8 and the first word is decoded: the event counter is 1 and
the decoder has left `AwaitingHeader`. -/
theorem transport_failure_not_empty :
    demoFailedBlt.ret ≠ 0
    ∧ needRefill (initState demoState) = some true
    ∧ ((initState demoState).totnb, (initState demoState).nev, (initState demoState).DataType)
      = (0, 0, DATATYPE_HEADER)
    ∧ (acquire demoFailedBlt (initState demoState)).map
        (fun s => (s.wcnt, s.totnb, s.nev, s.DataType, s.pnt))
      = some (2, 8, 1, DATATYPE_EOB, 1) := by
  refine ⟨by decide, by decide, by decide, by decide⟩

/-- C10 as amended.  When a refill is due and the transfer returns a nonzero error
code, the error code is not examined: the pass is the same as with the code 0,
whatever byte count is reported.  If the reported byte count is 0, the pass ends after
the refill: the word count is 0, the byte counter is unchanged, no word is decoded,
and the decoder state, the expected and running channel counts, the event table, the
histograms, the hit counters and the list file are unchanged. -/
theorem transport_failure_empty_block (blt : Blt) (s : State)
    (hr : needRefill s = some true) (_hret : blt.ret ≠ 0) :
    acquire blt s = acquire { blt with ret := 0 } s
    ∧ (blt.bcnt = 0 →
      ∃ s' : State, acquire blt s = some s'
        ∧ s'.wcnt = 0 ∧ s'.pnt = 0 ∧ s'.totnb = s.totnb
        ∧ acquireHit blt s = none
        ∧ s'.DataType = s.DataType ∧ s'.nch = s.nch ∧ s'.chindex = s.chindex
        ∧ s'.nev = s.nev
        ∧ s'.ADCdata = s.ADCdata ∧ s'.histo = s.histo ∧ s'.ns = s.ns
        ∧ s'.of_list = s.of_list ∧ s'.regWrites = s.regWrites) := by
  refine ⟨rfl, ?_⟩
  intro hb
  have hw : (refill blt s).wcnt = 0 := by simp [refill, hb]
  refine ⟨refill blt s, ?_, hw, rfl, by simp [refill, hb], ?_, rfl, rfl, rfl, rfl, rfl, rfl, rfl,
    rfl, rfl⟩
  · simp [acquire, hr, hw]
  · simp [acquireHit, hr, hw]

/-- Witness of the amended C10: a failed transfer reporting 0 bytes from the initial
state. -/
theorem transport_failure_empty_block_witness :
    ∃ s' : State, acquire { demoFailedBlt with bcnt := 0 } (initState demoState) = some s'
      ∧ s'.wcnt = 0 ∧ s'.totnb = (initState demoState).totnb
      ∧ s'.DataType = (initState demoState).DataType := by
  obtain ⟨s', h1, h2, _, h3, _, h4, _⟩ :=
    (transport_failure_empty_block { demoFailedBlt with bcnt := 0 } (initState demoState)
      (by decide) (by decide)).2 rfl
  exact ⟨s', h1, h2, h3, h4⟩

/-! ## The loop over the words of a block -/

theorem decodeWord_of_raw (w : Nat) (s : State) (r : Option (List Nat)) :
    decodeWord w { s with of_raw := r }
      = (decodeWord w s).map (fun s1 => { s1 with of_raw := r }) := by
  unfold decodeWord
  simp only
  split_ifs <;> rfl

theorem decodeWord_regWrites (w : Nat) (s s1 : State) (h : decodeWord w s = some s1) :
    (s1.regWrites.length = s.regWrites.length + 2 ∧ s1 = dataError s)
    ∨ (s1.regWrites = s.regWrites ∧ s1.pnt = s.pnt + 1 ∧ s1.wcnt = s.wcnt
      ∧ s1.bcnt = s.bcnt ∧ s1.buffer = s.buffer) := by
  unfold decodeWord at h
  split_ifs at h <;> simp only [Option.some.injEq] at h <;> subst h
  all_goals first
    | (left; exact ⟨by simp [dataError], rfl⟩)
    | (right; exact ⟨rfl, rfl, rfl, rfl, rfl⟩)

theorem feed_regWrites_le (ws : List Nat) (s s' : State) (h : feed ws s = some s') :
    s.regWrites.length ≤ s'.regWrites.length := by
  induction ws generalizing s with
  | nil =>
    simp only [feed, Option.some.injEq] at h
    subst h
    exact le_refl _
  | cons w ws2 ih =>
    simp only [feed] at h
    cases h1 : decodeWord w s with
    | none => rw [h1] at h; exact absurd h (by simp)
    | some s1 =>
      rw [h1] at h
      simp only [Option.some_bind] at h
      have := ih s1 h
      rcases decodeWord_regWrites w s s1 h1 with ⟨h2, _⟩ | ⟨h2, _⟩
      · omega
      · rw [h2] at this; exact this

theorem saveRaw_in_range (s : State) (hb : 0 ≤ s.bcnt ∧ s.bcnt ≤ 262144) :
    ∃ r, saveRaw s = some { s with of_raw := r } := by
  unfold saveRaw
  cases h : s.of_raw with
  | none =>
    refine ⟨none, ?_⟩
    simp only
    rw [← h]
  | some f =>
    have hb2 : 0 ≤ s.bcnt ∧ s.bcnt ≤ (MAX_BLT_SIZE : Int) := by
      simp only [MAX_BLT_SIZE]
      omega
    simp only
    rw [if_pos hb2]
    exact ⟨_, rfl⟩

theorem acquire_decode (blt : Blt) (s : State) (r : Option (List Nat))
    (hp : 0 ≤ s.pnt ∧ s.pnt < 65536) (hne : s.pnt ≠ s.wcnt) (hw0 : s.wcnt ≠ 0)
    (hf : s.buffer s.pnt.toNat &&& DATATYPE_MASK ≠ DATATYPE_FILLER)
    (hb : 0 ≤ s.bcnt ∧ s.bcnt ≤ 262144) :
    ∃ r2, acquire blt { s with of_raw := r }
      = (decodeWord (s.buffer s.pnt.toNat) s).map (fun s1 => { s1 with of_raw := r2 }) := by
  obtain ⟨r2, hr2⟩ := saveRaw_in_range { s with of_raw := r } hb
  refine ⟨r2, ?_⟩
  have hn : needRefill { s with of_raw := r } = some false := by
    simp [needRefill, hne, hp, hf]
  unfold acquire
  rw [hn]
  simp only [Bool.false_eq_true, if_false, hw0]
  rw [hr2]
  simp only [Option.some_bind, decode, hp, and_self, if_true]
  exact decodeWord_of_raw _ s r2

theorem acquireN_feed (ws : List Nat) (blts : List Blt) (s s' : State) (r : Option (List Nat))
    (hlen : blts.length = ws.length)
    (hfeed : feed ws s = some s')
    (hreg : s'.regWrites.length = s.regWrites.length)
    (hp : 0 ≤ s.pnt) (hpw : s.pnt + ws.length ≤ s.wcnt) (hw : s.wcnt ≤ 65536)
    (hb : 0 ≤ s.bcnt ∧ s.bcnt ≤ 262144)
    (hbuf : ∀ k, k < ws.length → s.buffer (s.pnt.toNat + k) = ws.getD k 0)
    (hfill : ∀ w ∈ ws, w &&& DATATYPE_MASK ≠ DATATYPE_FILLER) :
    ∃ r2, acquireN blts { s with of_raw := r } = some { s' with of_raw := r2 } := by
  induction ws generalizing blts s r with
  | nil =>
    cases blts with
    | nil =>
      simp only [feed, Option.some.injEq] at hfeed
      subst hfeed
      exact ⟨r, rfl⟩
    | cons b bs => simp at hlen
  | cons w ws2 ih =>
    cases blts with
    | nil => simp at hlen
    | cons b bs =>
      simp only [List.length_cons] at hlen hpw hbuf
      have hw0 : s.buffer s.pnt.toNat = w := by
        have := hbuf 0 (by omega)
        simpa using this
      simp only [feed] at hfeed
      cases h1 : decodeWord w s with
      | none => rw [h1] at hfeed; exact absurd hfeed (by simp)
      | some s1 =>
        rw [h1] at hfeed
        simp only [Option.some_bind] at hfeed
        have hle := feed_regWrites_le ws2 s1 s' hfeed
        rcases decodeWord_regWrites w s s1 h1 with ⟨h2, _⟩ | ⟨h2, h3, h4, h5, h6⟩
        · omega
        · obtain ⟨r1, hr1⟩ := acquire_decode b s r ⟨hp, by push_cast at hpw; omega⟩
            (by push_cast at hpw; omega) (by push_cast at hpw; omega)
            (by rw [hw0]; exact hfill w (List.mem_cons_self _ _)) hb
          rw [hw0, h1] at hr1
          simp only [Option.map_some'] at hr1
          obtain ⟨r2, hr2⟩ := ih bs s1 r1 (by omega) hfeed (by rw [hreg, h2])
            (by omega) (by push_cast at hpw ⊢; omega) (by omega) (by rw [h5]; exact hb)
            (by
              intro k hk
              have := hbuf (k + 1) (by omega)
              rw [h6, h3]
              have e : (s.pnt + 1).toNat + k = s.pnt.toNat + (k + 1) := by omega
              rw [e, this]
              rfl)
            (fun x hx => hfill x (List.mem_cons_of_mem _ hx))
          refine ⟨r2, ?_⟩
          simp only [acquireN, hr1, Option.some_bind]
          exact hr2

theorem storeChannels_regWrites (cs : List Nat) (s : State) :
    (storeChannels cs s).regWrites = s.regWrites := by
  induction cs generalizing s with
  | nil => rfl
  | cons w ws ih => simp [storeChannels_cons, ih, onChannel]

theorem acquire_refill (blt : Blt) (s : State) (h1 : needRefill s = some true)
    (h2 : needRefill (refill blt s) = some false) :
    acquire blt s = acquire blt (refill blt s) := by
  unfold acquire
  rw [h1, h2]
  simp

theorem decodeWord_channel_error (w : Nat) (s : State) (hs : s.DataType = DATATYPE_CHDATA)
    (hw : w &&& DATATYPE_MASK ≠ DATATYPE_CHDATA) : decodeWord w s = some (dataError s) := by
  have h1 : ¬ s.DataType = DATATYPE_HEADER := by rw [hs]; decide
  unfold decodeWord
  rw [if_neg h1, if_pos hs, if_pos hw]

/-- C3 (resynchronization).  The cursor is on a word of the current block where a
channel word of the event in progress is expected, and the word carries the header
tag.  The pass that consumes it leaves the cursor at the end of the block and the
decoder in `AwaitingHeader`, without writing a record.  If the next block transfer
delivers a block that starts with a frame (header with count `n`, `n` channel words
with indices in the tables, end of block), the passes over that frame write one
record, whose number and fields are those of the frame: the fields are given by
`lastHit` on the frame's own channel words; the expected and running channel counts
are `n`, and the event table holds the frame's values and 0xFFFF elsewhere. -/
theorem resynchronization (s : State) (out : List ListRecord) (b0 b1 : Blt) (rest : List Blt)
    (h : Nat) (cs : List Nat) (t : Nat)
    (hs : s.DataType = DATATYPE_CHDATA)
    (hl : s.of_list = some out)
    (hp : 0 ≤ s.pnt ∧ s.pnt < s.wcnt) (hw : s.wcnt ≤ 65536)
    (hbc : 0 ≤ s.bcnt ∧ s.bcnt ≤ 262144)
    (hcorrupt : s.buffer s.pnt.toNat &&& DATATYPE_MASK = DATATYPE_HEADER)
    (hh : h &&& DATATYPE_MASK = DATATYPE_HEADER)
    (hn : (h >>> 8) &&& 0x3F = cs.length)
    (hc : ∀ w ∈ cs, w &&& DATATYPE_MASK = DATATYPE_CHDATA ∧ chanIndex s.brd_nch w < 32)
    (ht : t &&& DATATYPE_MASK = DATATYPE_EOB)
    (hdata : ∀ k, k < cs.length + 2 → b1.data k = (h :: cs ++ [t]).getD k 0)
    (hcnt : 4 * ((cs.length : Int) + 2) ≤ b1.bcnt ∧ b1.bcnt ≤ 262144)
    (hrest : rest.length = cs.length + 1) :
    (∃ s1 : State, acquire b0 s = some s1 ∧ s1.pnt = s1.wcnt
      ∧ s1.DataType = DATATYPE_HEADER ∧ s1.of_list = some out)
    ∧ ∃ s' : State, acquireN (b0 :: b1 :: rest) s = some s'
      ∧ s'.of_list
        = some (out ++ [⟨t &&& 0xFFFFFF, (List.range 32).filterMap (lastHit s.brd_nch cs)⟩])
      ∧ s'.DataType = DATATYPE_HEADER
      ∧ s'.nch = cs.length ∧ s'.chindex = cs.length
      ∧ ∀ i, i < 32 → s'.ADCdata i = (lastHit s.brd_nch cs i).getD 0xFFFF := by
  -- the pass on the corrupted word
  have htag1 : s.buffer s.pnt.toNat &&& DATATYPE_MASK ≠ DATATYPE_FILLER := by
    rw [hcorrupt]; decide
  have htag2 : s.buffer s.pnt.toNat &&& DATATYPE_MASK ≠ DATATYPE_CHDATA := by
    rw [hcorrupt]; decide
  obtain ⟨r1, hr1⟩ := acquire_decode b0 s s.of_raw ⟨hp.1, by omega⟩ (by omega) (by omega)
    htag1 hbc
  rw [decodeWord_channel_error _ s hs htag2] at hr1
  simp only [Option.map_some'] at hr1
  have hr1b : acquire b0 s = some { dataError s with of_raw := r1 } := hr1
  refine ⟨⟨_, hr1b, rfl, rfl, hl⟩, ?_⟩
  -- the refill with the following block
  have hwc : (cs.length : Int) + 2 ≤ Int.tdiv b1.bcnt 4 ∧ Int.tdiv b1.bcnt 4 ≤ 65536 := by
    rw [Int.tdiv_eq_ediv (by omega) (by norm_num)]
    omega
  have hd0 : b1.data 0 = h := by
    have := hdata 0 (by omega)
    simpa using this
  have hfillers : ∀ w ∈ h :: cs ++ [t], w &&& DATATYPE_MASK ≠ DATATYPE_FILLER := by
    intro w hw
    rcases List.mem_append.mp hw with hw1 | hw1
    · rcases List.mem_cons.mp hw1 with hw2 | hw2
      · rw [hw2, hh]; decide
      · rw [(hc w hw2).1]; decide
    · rw [List.mem_singleton.mp hw1, ht]; decide
  have hn1 : needRefill ({ dataError s with of_raw := r1 } : State) = some true := by
    simp [needRefill, dataError]
  have hn2 : needRefill (refill b1 ({ dataError s with of_raw := r1 } : State)) = some false := by
    have h0 : ¬ (0 : Int) = Int.tdiv b1.bcnt 4 := by omega
    have hf : ¬ b1.data 0 &&& DATATYPE_MASK = DATATYPE_FILLER := by
      rw [hd0, hh]; decide
    simp [needRefill, refill, h0, hf]
  -- the passes over the frame
  have hfeed := feed_frame (refill b1 (dataError s)) h cs t rfl hh hn hc ht
  obtain ⟨r2, hr2⟩ := acquireN_feed (h :: cs ++ [t]) (b1 :: rest) (refill b1 (dataError s)) _ r1
    (by simp [hrest]) hfeed (by simp [onTrailer, storeChannels_regWrites, onHeader])
    (le_refl _)
    (by
      simp only [refill, List.cons_append, List.length_cons, List.length_append,
        List.length_singleton, List.length_nil]
      push_cast
      omega)
    hwc.2 (by simp only [refill]; omega)
    (by
      intro k hk
      simp only [List.cons_append, List.length_cons, List.length_append,
        List.length_singleton, List.length_nil] at hk
      have := hdata k (by omega)
      simpa [refill] using this)
    hfillers
  refine ⟨{ onTrailer t (storeChannels cs (onHeader h (refill b1 (dataError s)))) with
    of_raw := r2 }, ?_, ?_, rfl, ?_, ?_, ?_⟩
  · simp only [acquireN, hr1b, Option.some_bind]
    rw [acquire_refill b1 _ hn1 hn2]
    exact hr2
  · simp only [onTrailer, storeChannels_of_list, listFields_frame]
    simp [onHeader, refill, dataError, hl]
  · simp [onTrailer, storeChannels_nch, onHeader, hn]
  · simp [onTrailer, storeChannels_chindex, onHeader]
  · intro i hi
    simp [onTrailer, storeChannels_ADCdata, onHeader, hi, refill, dataError]

/-- Witness of C3: the cursor of `demoCorrupt` is on a header-tagged word in the middle
of an event; the next transfer delivers `demoBlock`, whose first frame is event 0 with
channel 0 = 451 and channel 1 = 605. -/
theorem resynchronization_witness :
    ∃ s' : State, acquireN [demoBlt, demoBlt, demoBlt, demoBlt, demoBlt] demoCorrupt = some s'
      ∧ s'.of_list = some [⟨0, [451, 605]⟩] := by
  obtain ⟨_, s', h1, h2, _⟩ := resynchronization demoCorrupt [] demoBlt demoBlt
    [demoBlt, demoBlt, demoBlt] 0x02000200 [0x000001C3, 0x0001025D] 0x04000000
    rfl rfl (by decide) (by decide) (by decide) (by decide) (by decide) (by decide)
    (by decide) (by decide) (by decide) (by decide) rfl
  refine ⟨s', h1, ?_⟩
  rw [h2]
  decide

/-! ## Model identification -/

/-- Counterexample to C14.  Version bytes above 0xE0 for which a supported model is
reported with 32 channels (792 with 0xE2, 965 with 0xE1 and 0xE3, 785 with 0xE5, 862
with 0xE1), so that the decoder shifts the index by 16 bits; and a version byte
below 0xE0 (965 with 0x1E) reported with 16 channels. -/
theorem version_above_E0_not_sixteen :
    (0xE0 < 0xE2 ∧ boardChannels 792 0xE2 = 32)
    ∧ (0xE0 < 0xE1 ∧ boardChannels 965 0xE1 = 32)
    ∧ boardChannels 965 0xE3 = 32
    ∧ boardChannels 785 0xE5 = 32
    ∧ boardChannels 862 0xE1 = 32
    ∧ chanIndex (boardChannels 965 0xE1) 0x00010000 = 1
    ∧ (0x1E ≤ 0xE0 ∧ boardChannels 965 0x1E = 16) := by
  decide

/-- C14 as amended.  For a supported model `findModelVersion` reports 16 channels
exactly for the versions its table lists as such: 0xE1 and 0xE3 of the models 792 and
775, 0xE1 to 0xE4 of the model 785, and 0x1E of the model 965.  For every other
version byte of a supported model it reports 32 channels.  The decoder takes the
channel index from bit 17 when 16 channels are reported and from bit 16 when 32
are. -/
theorem model_identification (model vers : Nat) (w : Nat)
    (hm : model = 792 ∨ model = 965 ∨ model = 775 ∨ model = 785 ∨ model = 862) :
    (boardChannels model vers
      = if ((model = 792 ∨ model = 775) ∧ (vers = 0xE1 ∨ vers = 0xE3))
          ∨ (model = 785 ∧ 0xE1 ≤ vers ∧ vers ≤ 0xE4)
          ∨ (model = 965 ∧ vers = 0x1E) then 16 else 32)
    ∧ (boardChannels model vers = 16 →
        chanIndex (boardChannels model vers) w = (w >>> 17) &&& 0x3F)
    ∧ (boardChannels model vers = 32 →
        chanIndex (boardChannels model vers) w = (w >>> 16) &&& 0x3F) := by
  refine ⟨?_, ?_, ?_⟩
  · unfold boardChannels
    rcases hm with h | h | h | h | h <;> subst h <;> unfold findModelVersion <;>
      simp only [reduceIte]
    all_goals (split <;> simp)
    all_goals (simp only [imp_false] at *)
    all_goals (rw [if_neg (by omega)])
  · intro h16
    rw [h16]
    simp [chanIndex]
  · intro h32
    rw [h32]
    simp [chanIndex]

/-- Witness of the amended C14: the model 792 with the version byte 0xE3 (V792NC). -/
theorem model_identification_witness :
    boardChannels 792 0xE3 = 16
    ∧ chanIndex (boardChannels 792 0xE3) 0x00020000 = (0x00020000 >>> 17) &&& 0x3F := by
  obtain ⟨h1, h2, _⟩ := model_identification 792 0xE3 0x00020000 (Or.inl rfl)
  refine ⟨?_, h2 ?_⟩
  · rw [h1]; decide
  · rw [h1]; decide

/-! ## The cursor and the word count -/

theorem decodeWord_view_cursor (w : Nat) (s : State) (p wc bc tn : Int) (q : Bool)
    (bf : Nat → Nat) (r : Option (List Nat)) :
    (decodeWord w { s with pnt := p, wcnt := wc, bcnt := bc, totnb := tn, quit := q
                           buffer := bf, of_raw := r }).map decoderView
      = (decodeWord w s).map decoderView := by
  unfold decodeWord
  simp only
  split_ifs <;> rfl

theorem eq_of_decoderView (a s : State) (h : decoderView a = decoderView s) :
    a = { s with pnt := a.pnt, wcnt := a.wcnt, bcnt := a.bcnt, totnb := a.totnb
                 quit := a.quit, buffer := a.buffer, of_raw := a.of_raw } := by
  cases a
  cases s
  simp only [decoderView, State.mk.injEq] at h
  simp only [State.mk.injEq]
  tauto

theorem decoderView_fields (a s : State) (h : decoderView a = decoderView s) :
    a.regWrites = s.regWrites ∧ a.of_list = s.of_list ∧ a.DataType = s.DataType := by
  have h1 : (decoderView a).regWrites = (decoderView s).regWrites := by rw [h]
  have h2 : (decoderView a).of_list = (decoderView s).of_list := by rw [h]
  have h3 : (decoderView a).DataType = (decoderView s).DataType := by rw [h]
  exact ⟨h1, h2, h3⟩

theorem decodeWord_view (w : Nat) (a s : State) (h : decoderView a = decoderView s) :
    (decodeWord w a).map decoderView = (decodeWord w s).map decoderView := by
  rw [eq_of_decoderView a s h]
  exact decodeWord_view_cursor w s _ _ _ _ _ _ _

theorem feed_view (ws : List Nat) (a s : State) (h : decoderView a = decoderView s) :
    (feed ws a).map decoderView = (feed ws s).map decoderView := by
  induction ws generalizing a s with
  | nil => simp [feed, h]
  | cons w ws2 ih =>
    have hstep := decodeWord_view w a s h
    simp only [feed]
    cases ha : decodeWord w a with
    | none =>
      rw [ha] at hstep
      cases hs : decodeWord w s with
      | none => simp
      | some s1 => rw [hs] at hstep; simp at hstep
    | some a1 =>
      rw [ha] at hstep
      cases hs : decodeWord w s with
      | none => rw [hs] at hstep; simp at hstep
      | some s1 =>
        rw [hs] at hstep
        simp only [Option.map_some', Option.some.injEq] at hstep
        simp only [Option.some_bind]
        exact ih a1 s1 hstep

theorem feed_on_track (ws : List Nat) (s s' : State) (h : feed ws s = some s')
    (hreg : s'.regWrites.length = s.regWrites.length) :
    s'.pnt = s.pnt + ws.length ∧ s'.wcnt = s.wcnt := by
  induction ws generalizing s with
  | nil =>
    simp only [feed, Option.some.injEq] at h
    subst h
    simp
  | cons w ws2 ih =>
    simp only [feed] at h
    cases h1 : decodeWord w s with
    | none => rw [h1] at h; exact absurd h (by simp)
    | some s1 =>
      rw [h1] at h
      simp only [Option.some_bind] at h
      have hle := feed_regWrites_le ws2 s1 s' h
      rcases decodeWord_regWrites w s s1 h1 with ⟨h2, _⟩ | ⟨h2, h3, h4, _, _⟩
      · omega
      · obtain ⟨e1, e2⟩ := ih s1 h (by rw [hreg, h2])
        rw [e1, e2, h3, h4]
        refine ⟨?_, rfl⟩
        simp only [List.length_cons]
        push_cast
        ring

theorem acquireN_append (l1 l2 : List Blt) (s : State) :
    acquireN (l1 ++ l2) s = (acquireN l1 s).bind (acquireN l2) := by
  induction l1 generalizing s with
  | nil => simp [acquireN]
  | cons b bs ih =>
    simp only [List.cons_append, acquireN]
    cases h : acquire b s with
    | none => simp
    | some s1 => simp [ih]

theorem feed_frames (frames : List Frame) (s : State)
    (hs : s.DataType = DATATYPE_HEADER)
    (hf : ∀ f ∈ frames, wellFormed s.brd_nch f) :
    ∃ s' : State, feed (frameStream frames) s = some s'
      ∧ s'.of_list = s.of_list.map (fun o => o ++ frames.map (Frame.record s.brd_nch))
      ∧ s'.DataType = DATATYPE_HEADER
      ∧ s'.regWrites = s.regWrites := by
  induction frames generalizing s with
  | nil =>
    refine ⟨s, rfl, ?_, hs, rfl⟩
    cases s.of_list <;> simp
  | cons f fs ih =>
    obtain ⟨h1, h2, h3, h4, h5⟩ := hf f (List.mem_cons_self _ _)
    have hfr := feed_frame s f.header f.channels f.trailer hs h1 h2 h3 h5
    have hb : (onTrailer f.trailer (storeChannels f.channels (onHeader f.header s))).brd_nch
        = s.brd_nch := by
      simp [onTrailer, storeChannels_brd_nch, onHeader]
    obtain ⟨s', e1, e2, e3, e4⟩ :=
      ih (onTrailer f.trailer (storeChannels f.channels (onHeader f.header s))) rfl
        (by
          intro g hg
          rw [hb]
          exact hf g (List.mem_cons_of_mem _ hg))
    refine ⟨s', ?_, ?_, e3, ?_⟩
    · simp only [frameStream, Frame.words]
      rw [feed_append, hfr]
      exact e1
    · rw [e2, hb]
      simp only [onTrailer, storeChannels_of_list, listFields_frame, ← byChannel_values _ _ h4]
      simp only [onHeader, Frame.record, List.map_cons]
      cases s.of_list <;> simp
    · rw [e4]
      simp [onTrailer, storeChannels_regWrites, onHeader]

theorem frameStream_tags (brd : Int) (frames : List Frame)
    (hf : ∀ f ∈ frames, wellFormed brd f) :
    ∀ w ∈ frameStream frames, w &&& DATATYPE_MASK ≠ DATATYPE_FILLER := by
  induction frames with
  | nil => simp [frameStream]
  | cons f fs ih =>
    obtain ⟨h1, _, h3, _, h5⟩ := hf f (List.mem_cons_self _ _)
    intro w hw
    simp only [frameStream, Frame.words] at hw
    rcases List.mem_append.mp hw with hw1 | hw1
    · rcases List.mem_append.mp hw1 with hw2 | hw2
      · rcases List.mem_cons.mp hw2 with hw3 | hw3
        · rw [hw3, h1]; decide
        · rw [(h3 w hw3).1]; decide
      · rw [List.mem_singleton.mp hw2, h5]; decide
    · exact ih (fun g hg => hf g (List.mem_cons_of_mem _ hg)) w hw1

theorem blockWords_getD (b : Blt) (k : Nat) (hk : k < (blockWords b).length) :
    (blockWords b).getD k 0 = b.data k := by
  unfold blockWords at hk ⊢
  simp only [List.length_map, List.length_range] at hk
  simp [List.getD_eq_getElem?_getD, hk]

theorem acquireN_block (b : Blt) (a a1 : State) (hp : a.pnt = a.wcnt)
    (hb : 4 ≤ b.bcnt ∧ b.bcnt ≤ 262144)
    (hfeed : feed (blockWords b) (refill b a) = some a1)
    (hreg : a1.regWrites.length = a.regWrites.length)
    (hfill : ∀ w ∈ blockWords b, w &&& DATATYPE_MASK ≠ DATATYPE_FILLER) :
    ∃ r2, acquireN (List.replicate (Int.tdiv b.bcnt 4).toNat b) a
      = some { a1 with of_raw := r2 } := by
  have ht : Int.tdiv b.bcnt 4 = b.bcnt / 4 := Int.tdiv_eq_ediv (by omega) (by norm_num)
  have hlen : (blockWords b).length = (Int.tdiv b.bcnt 4).toNat := by simp [blockWords]
  have hn : 1 ≤ (Int.tdiv b.bcnt 4).toNat := by rw [ht]; omega
  have hcast : (((Int.tdiv b.bcnt 4).toNat : Nat) : Int) = Int.tdiv b.bcnt 4 := by
    rw [ht]; omega
  have hd0 : b.data 0 ∈ blockWords b := by
    unfold blockWords
    exact List.mem_map.mpr ⟨0, List.mem_range.mpr (by omega), rfl⟩
  have hn1 : needRefill a = some true := by simp [needRefill, hp]
  have hn2 : needRefill (refill b a) = some false := by
    have h0 : ¬ (0 : Int) = Int.tdiv b.bcnt 4 := by rw [ht]; omega
    have hf := hfill _ hd0
    simp [needRefill, refill, h0, hf]
  obtain ⟨r2, hr2⟩ := acquireN_feed (blockWords b)
    (List.replicate (Int.tdiv b.bcnt 4).toNat b) (refill b a) a1 (refill b a).of_raw
    (by simp [hlen]) hfeed hreg (le_refl _)
    (by
      rw [hlen, hcast]
      simp [refill])
    (by simp only [refill]; rw [ht]; omega)
    (by simp only [refill]; omega)
    (by
      intro k hk
      rw [blockWords_getD b k hk]
      simp [refill])
    hfill
  refine ⟨r2, ?_⟩
  rw [← hr2]
  obtain ⟨m, hm⟩ : ∃ m, (Int.tdiv b.bcnt 4).toNat = m + 1 := ⟨_, (Nat.succ_pred_eq_of_pos hn).symm⟩
  rw [hm, List.replicate_succ]
  simp only [acquireN]
  rw [acquire_refill b a hn1 hn2]

theorem acquireN_blocks (blocks : List Blt) (a s sF : State)
    (hview : decoderView a = decoderView s) (hp : a.pnt = a.wcnt)
    (hb : ∀ b ∈ blocks, 4 ≤ b.bcnt ∧ b.bcnt ≤ 262144)
    (hfeed : feed (streamOf blocks) s = some sF)
    (hreg : sF.regWrites.length = s.regWrites.length)
    (hfill : ∀ w ∈ streamOf blocks, w &&& DATATYPE_MASK ≠ DATATYPE_FILLER) :
    ∃ aF : State, acquireN (blockPasses blocks) a = some aF
      ∧ decoderView aF = decoderView sF := by
  induction blocks generalizing a s with
  | nil =>
    simp only [streamOf, feed, Option.some.injEq] at hfeed
    subst hfeed
    exact ⟨a, rfl, hview⟩
  | cons b bs ih =>
    simp only [streamOf] at hfeed hfill
    rw [feed_append] at hfeed
    cases h1 : feed (blockWords b) s with
    | none => rw [h1] at hfeed; exact absurd hfeed (by simp)
    | some s1 =>
      rw [h1] at hfeed
      simp only [Option.some_bind] at hfeed
      have hle1 := feed_regWrites_le _ s s1 h1
      have hle2 := feed_regWrites_le _ s1 sF hfeed
      have hv : decoderView (refill b a) = decoderView s := hview
      have hfv := feed_view (blockWords b) (refill b a) s hv
      rw [h1] at hfv
      cases h2 : feed (blockWords b) (refill b a) with
      | none => rw [h2] at hfv; simp at hfv
      | some a1 =>
        rw [h2] at hfv
        simp only [Option.map_some', Option.some.injEq] at hfv
        have hra : a.regWrites = s.regWrites := (decoderView_fields a s hview).1
        have hr1 : a1.regWrites = s1.regWrites := (decoderView_fields a1 s1 hfv).1
        have hreg1 : a1.regWrites.length = a.regWrites.length := by
          rw [hr1, hra]; omega
        obtain ⟨r2, hr2⟩ := acquireN_block b a a1 hp (hb b (List.mem_cons_self _ _)) h2 hreg1
          (fun w hw => hfill w (List.mem_append_left _ hw))
        have htrack := feed_on_track _ _ _ h2 (by
          rw [hreg1]
          rfl)
        have hbb := hb b (List.mem_cons_self _ _)
        have ht : Int.tdiv b.bcnt 4 = b.bcnt / 4 := Int.tdiv_eq_ediv (by omega) (by norm_num)
        have hp1 : ({ a1 with of_raw := r2 } : State).pnt = ({ a1 with of_raw := r2 } : State).wcnt := by
          show a1.pnt = a1.wcnt
          rw [htrack.1, htrack.2]
          simp only [refill, blockWords, List.length_map, List.length_range]
          rw [ht]
          omega
        obtain ⟨aF, e1, e2⟩ := ih { a1 with of_raw := r2 } s1 hfv hp1
          (fun c hc => hb c (List.mem_cons_of_mem _ hc)) hfeed (by omega)
          (fun w hw => hfill w (List.mem_append_right _ hw))
        refine ⟨aF, ?_, e2⟩
        simp only [blockPasses]
        rw [acquireN_append, hr2]
        exact e1

/-- C13 (arrival order).  The list file is open, the decoder is in `AwaitingHeader`
and the cursor is at the end of the previous fill.  A sequence of well-formed frames
arrives as a sequence of blocks, each of at least one word and at most 262144 bytes;
the words of the blocks, in arrival order, are the words of the frames in stream
order.  The passes over these blocks append to the list file one record per frame, in
the order of the frames, each with the low 24 bits of its own trailer and the values
of its own channel words, and leave the decoder in `AwaitingHeader`. -/
theorem arrival_order (s : State) (out : List ListRecord) (frames : List Frame)
    (blocks : List Blt)
    (hs : s.DataType = DATATYPE_HEADER)
    (hl : s.of_list = some out)
    (hp : s.pnt = s.wcnt)
    (hf : ∀ f ∈ frames, wellFormed s.brd_nch f)
    (hb : ∀ b ∈ blocks, 4 ≤ b.bcnt ∧ b.bcnt ≤ 262144)
    (hstream : streamOf blocks = frameStream frames) :
    ∃ s' : State, acquireN (blockPasses blocks) s = some s'
      ∧ s'.of_list = some (out ++ frames.map (Frame.record s.brd_nch))
      ∧ s'.DataType = DATATYPE_HEADER := by
  obtain ⟨sF, e1, e2, e3, e4⟩ := feed_frames frames s hs hf
  rw [← hstream] at e1
  obtain ⟨aF, h1, h2⟩ := acquireN_blocks blocks s s sF rfl hp hb e1 (by rw [e4])
    (by
      rw [hstream]
      exact frameStream_tags s.brd_nch frames hf)
  obtain ⟨_, v2, v3⟩ := decoderView_fields aF sF h2
  refine ⟨aF, h1, ?_, ?_⟩
  · rw [v2, e2, hl]
    rfl
  · rw [v3, e3]

/-- Witness of C13: from the initial state of the loop, the stream [header with count
2, channel 0 = 451, channel 1 = 605, end of block 0, header with count 2, channel 0 =
556, channel 1 = 985, end of block 1] arrives in two blocks.  The list file holds the
events 0 with (451, 605) and 1 with (556, 985), and the buckets 451 and 556 of channel
0 and 605 and 985 of channel 1 each hold 1. -/
theorem arrival_order_witness :
    ∃ s' : State, acquireN (blockPasses [demoBltA, demoBltB]) (initState demoState) = some s'
      ∧ s'.of_list = some [⟨0, [451, 605]⟩, ⟨1, [556, 985]⟩]
      ∧ s'.histo 0 451 = 1 ∧ s'.histo 0 556 = 1
      ∧ s'.histo 1 605 = 1 ∧ s'.histo 1 985 = 1 := by
  obtain ⟨s', h1, h2, _⟩ := arrival_order (initState demoState) [] demoFrames
    [demoBltA, demoBltB] rfl rfl rfl (by decide) (by decide) (by decide)
  have hh : (acquireN (blockPasses [demoBltA, demoBltB]) (initState demoState)).map
      (fun s => (s.histo 0 451, s.histo 0 556, s.histo 1 605, s.histo 1 985))
      = some (1, 1, 1, 1) := by decide
  rw [h1] at hh
  simp only [Option.map_some', Option.some.injEq, Prod.mk.injEq] at hh
  refine ⟨s', h1, ?_, hh.1, hh.2.1, hh.2.2.1, hh.2.2.2⟩
  rw [h2]
  decide

end QTPD
